import Mathlib

/-!
Verification of the `retry` Go package (src/retry.go) against its
specification.

Embedding choices:
* One invocation of a Go `func() error` is modelled by `Outcome ε π`:
  the function returns nil (`ok`), returns a non-nil error of type `ε`
  (`fail`), or terminates abnormally with a payload of type `π`
  (`panic`).  An operation is a function `Nat → Outcome ε π` giving the
  outcome of its k-th invocation (k counted from 0).
* `Try` (src/retry.go lines 18-25) becomes a pure function from the
  outcome of the single invocation it performs to the `error` value it
  returns; Go's nil error is `none`.
* `Retry` (src/retry.go lines 32-56) is modelled by `retryGo`, a
  fuel-indexed loop that records the observable events of a run — each
  invocation of `f`, each call of `onError` with the error value handed
  to it, and each `time.Sleep` with its duration in nanoseconds — as a
  trace.  `onError` is modelled by whether it is non-nil (`Bool`), since
  its own behaviour belongs to the caller.  One unit of fuel is one loop
  iteration; `none` means the loop did not exit within the given fuel
  (for `numberOfRetries < 0` the loop can genuinely run forever).
  Durations (`time.Duration`, an int64 nanosecond count) are modelled as
  `Int`; the loop performs no arithmetic on them that could overflow.
-/

variable {ε π : Type}

/-- Result of one invocation of a Go `func() error`. -/
inductive Outcome (ε π : Type) where
  | ok : Outcome ε π
  | fail : ε → Outcome ε π
  | panic : π → Outcome ε π
deriving DecidableEq

/-- The `recovered` struct of src/retry.go lines 9-11: wraps a panic payload. -/
structure recovered (π : Type) where
  e : π
deriving DecidableEq

/-- `(*recovered).Error()` of src/retry.go line 13: a fixed message,
independent of the payload. -/
def recovered.Error (_ : recovered π) : String :=
  "RECOVERED, UNKNOWN ERROR; CALL CausedBy() interface\x7b\x7d"

/-- `(*recovered).CausedBy()` of src/retry.go line 14: the original payload. -/
def recovered.CausedBy (r : recovered π) : π := r.e

/-- A non-nil Go `error` value as it can flow out of `Try`: either the
error the operation returned normally, or a `*recovered` built from a
panic payload. -/
inductive ErrorVal (ε π : Type) where
  | normal : ε → ErrorVal ε π
  | recoveredErr : recovered π → ErrorVal ε π
deriving DecidableEq

/-- `Try` of src/retry.go lines 18-25: run the function once; a normal
return passes the returned error through unchanged (nil stays nil), a
panic is recovered and wrapped in a `recovered` value. -/
def Try : Outcome ε π → Option (ErrorVal ε π)
  | Outcome.ok => none
  | Outcome.fail e => some (ErrorVal.normal e)
  | Outcome.panic v => some (ErrorVal.recoveredErr ⟨v⟩)

/-- An observable event of a `Retry` run: the k-th invocation of `f`, a
call of `onError` with the error value passed to it, or a `time.Sleep`
with its duration. -/
inductive Event (ε π : Type) where
  | invoke : Nat → Event ε π
  | report : ErrorVal ε π → Event ε π
  | sleep : Int → Event ε π
deriving DecidableEq

/-- src/retry.go lines 37-40: the sleep period is the first variadic
argument when present and positive, else `time.Second * 5`
(5000000000 ns). -/
def resolvePeriod : List Int → Int
  | [] => 5000000000
  | d :: _ => if 0 < d then d else 5000000000

/-- The loop of `Retry`, src/retry.go lines 41-55.  Arguments after the
operation `f`, the onError flag `b` and the resolved period `p`: the
fuel (number of loop iterations still allowed by the model), the current
value of `numberOfRetries`, and the index of the next invocation.
Returns the trace of the rest of the run, or `none` when the loop does
not exit within the given fuel. -/
def retryGo (f : Nat → Outcome ε π) (b : Bool) (p : Int) :
    Nat → Int → Nat → Option (List (Event ε π))
  | 0, remaining, _ => if remaining = 0 then some [] else none
  | fuel + 1, remaining, k =>
    if remaining = 0 then some []
    else
      let r : Int := if 0 < remaining then remaining - 1 else remaining
      match Try (f k) with
      | none => some [Event.invoke k]
      | some e =>
        (retryGo f b p fuel r (k + 1)).map fun rest =>
          Event.invoke k ::
            ((if b then [Event.report e] else []) ++
              (if r = 0 then [] else [Event.sleep p]) ++ rest)

/-- `Retry` of src/retry.go lines 32-56: resolve the period and run the
loop from `numberOfRetries` with invocation index 0.  `onError` is
`true` when a non-nil callback was supplied. -/
def Retry (f : Nat → Outcome ε π) (numberOfRetries : Int) (onError : Bool)
    (period : List Int) (fuel : Nat) : Option (List (Event ε π)) :=
  retryGo f onError (resolvePeriod period) fuel numberOfRetries 0

/-- The indices of the invocations of `f` in a trace, in order. -/
def invokesOf : List (Event ε π) → List Nat
  | [] => []
  | Event.invoke k :: tr => k :: invokesOf tr
  | Event.report _ :: tr => invokesOf tr
  | Event.sleep _ :: tr => invokesOf tr

/-- The error values handed to `onError` in a trace, in order. -/
def reportsOf : List (Event ε π) → List (ErrorVal ε π)
  | [] => []
  | Event.report e :: tr => e :: reportsOf tr
  | Event.invoke _ :: tr => reportsOf tr
  | Event.sleep _ :: tr => reportsOf tr

/-- The durations of the sleeps in a trace, in order. -/
def sleepsOf : List (Event ε π) → List Int
  | [] => []
  | Event.sleep d :: tr => d :: sleepsOf tr
  | Event.invoke _ :: tr => sleepsOf tr
  | Event.report _ :: tr => sleepsOf tr

/-- Number of invocations of `f` in a trace. -/
def countInvoke (tr : List (Event ε π)) : Nat := (invokesOf tr).length

/-- Number of `onError` calls in a trace. -/
def countReport (tr : List (Event ε π)) : Nat := (reportsOf tr).length

/-- Number of sleeps in a trace. -/
def countSleep (tr : List (Event ε π)) : Nat := (sleepsOf tr).length

/-- The trace of a run of the loop on an operation every invocation of
which fails, where `es j` is the error value `Try` returns for the j-th
invocation: starting at `remaining = n > 0` and invocation index `k`,
each iteration invokes, reports when `onError` is non-nil, and sleeps
unless the decremented counter reached 0. -/
def failTrace (b : Bool) (p : Int) (es : Nat → ErrorVal ε π) :
    Nat → Nat → List (Event ε π)
  | 0, _ => []
  | n + 1, k =>
    Event.invoke k ::
      ((if b then [Event.report (es k)] else []) ++
        (if n = 0 then [] else [Event.sleep p]) ++ failTrace b p es n (k + 1))

@[simp] lemma invokesOf_nil : invokesOf ([] : List (Event ε π)) = [] := rfl

@[simp] lemma invokesOf_cons_invoke (k : Nat) (tr : List (Event ε π)) :
    invokesOf (Event.invoke k :: tr) = k :: invokesOf tr := rfl

@[simp] lemma invokesOf_cons_report (e : ErrorVal ε π) (tr : List (Event ε π)) :
    invokesOf (Event.report e :: tr) = invokesOf tr := rfl

@[simp] lemma invokesOf_cons_sleep (d : Int) (tr : List (Event ε π)) :
    invokesOf (Event.sleep d :: tr) = invokesOf tr := rfl

@[simp] lemma invokesOf_append (t1 t2 : List (Event ε π)) :
    invokesOf (t1 ++ t2) = invokesOf t1 ++ invokesOf t2 := by
  induction t1 with
  | nil => rfl
  | cons ev t ih => cases ev <;> simp [ih]

@[simp] lemma reportsOf_nil : reportsOf ([] : List (Event ε π)) = [] := rfl

@[simp] lemma reportsOf_cons_invoke (k : Nat) (tr : List (Event ε π)) :
    reportsOf (Event.invoke k :: tr) = reportsOf tr := rfl

@[simp] lemma reportsOf_cons_report (e : ErrorVal ε π) (tr : List (Event ε π)) :
    reportsOf (Event.report e :: tr) = e :: reportsOf tr := rfl

@[simp] lemma reportsOf_cons_sleep (d : Int) (tr : List (Event ε π)) :
    reportsOf (Event.sleep d :: tr) = reportsOf tr := rfl

@[simp] lemma reportsOf_append (t1 t2 : List (Event ε π)) :
    reportsOf (t1 ++ t2) = reportsOf t1 ++ reportsOf t2 := by
  induction t1 with
  | nil => rfl
  | cons ev t ih => cases ev <;> simp [ih]

@[simp] lemma sleepsOf_nil : sleepsOf ([] : List (Event ε π)) = [] := rfl

@[simp] lemma sleepsOf_cons_invoke (k : Nat) (tr : List (Event ε π)) :
    sleepsOf (Event.invoke k :: tr) = sleepsOf tr := rfl

@[simp] lemma sleepsOf_cons_report (e : ErrorVal ε π) (tr : List (Event ε π)) :
    sleepsOf (Event.report e :: tr) = sleepsOf tr := rfl

@[simp] lemma sleepsOf_cons_sleep (d : Int) (tr : List (Event ε π)) :
    sleepsOf (Event.sleep d :: tr) = d :: sleepsOf tr := rfl

@[simp] lemma sleepsOf_append (t1 t2 : List (Event ε π)) :
    sleepsOf (t1 ++ t2) = sleepsOf t1 ++ sleepsOf t2 := by
  induction t1 with
  | nil => rfl
  | cons ev t ih => cases ev <;> simp [ih]

lemma invokesOf_reportIf (b : Bool) (e : ErrorVal ε π) :
    invokesOf (if b then [Event.report e] else []) = [] := by
  cases b <;> rfl

lemma invokesOf_sleepIf (c : Prop) [Decidable c] (p : Int) :
    invokesOf (if c then ([] : List (Event ε π)) else [Event.sleep p]) = [] := by
  split <;> rfl

lemma reportsOf_sleepIf (c : Prop) [Decidable c] (p : Int) :
    reportsOf (if c then ([] : List (Event ε π)) else [Event.sleep p]) = [] := by
  split <;> rfl

lemma sleepsOf_reportIf (b : Bool) (e : ErrorVal ε π) :
    sleepsOf (if b then [Event.report e] else []) = [] := by
  cases b <;> rfl

lemma invokesOf_failTrace (b : Bool) (p : Int) (es : Nat → ErrorVal ε π) :
    ∀ n k, invokesOf (failTrace b p es n k) = List.range' k n := by
  intro n
  induction n with
  | zero => intro k; simp [failTrace]
  | succ m ih =>
      intro k
      simp [failTrace, invokesOf_reportIf, invokesOf_sleepIf, ih,
        List.range'_succ]

lemma reportsOf_failTrace_true (p : Int) (es : Nat → ErrorVal ε π) :
    ∀ n k, reportsOf (failTrace true p es n k) = (List.range' k n).map es := by
  intro n
  induction n with
  | zero => intro k; simp [failTrace]
  | succ m ih =>
      intro k
      simp [failTrace, reportsOf_sleepIf, ih, List.range'_succ]

lemma reportsOf_failTrace_false (p : Int) (es : Nat → ErrorVal ε π) :
    ∀ n k, reportsOf (failTrace false p es n k) = [] := by
  intro n
  induction n with
  | zero => intro k; simp [failTrace]
  | succ m ih =>
      intro k
      simp [failTrace, reportsOf_sleepIf, ih]

lemma sleepsOf_failTrace (b : Bool) (p : Int) (es : Nat → ErrorVal ε π) :
    ∀ n k, sleepsOf (failTrace b p es n k) = List.replicate (n - 1) p := by
  intro n
  induction n with
  | zero => intro k; simp [failTrace]
  | succ m ih =>
      intro k
      rw [failTrace]
      cases m with
      | zero => simp [failTrace, sleepsOf_reportIf]
      | succ m' =>
          simp [sleepsOf_reportIf, ih, List.replicate_succ]

lemma retryGo_zero_remaining (f : Nat → Outcome ε π) (b : Bool) (p : Int) :
    ∀ fuel k, retryGo f b p fuel 0 k = some [] := by
  intro fuel k
  cases fuel <;> simp [retryGo]

lemma retryGo_fail_eq (f : Nat → Outcome ε π) (b : Bool) (p : Int)
    (es : Nat → ErrorVal ε π) (hf : ∀ j, Try (f j) = some (es j)) :
    ∀ n k, retryGo f b p n (n : Int) k = some (failTrace b p es n k) := by
  intro n
  induction n with
  | zero => intro k; simp [retryGo, failTrace]
  | succ m ih =>
      intro k
      have h1 : ((m : Int) + 1) ≠ 0 := by omega
      have h2 : (0 : Int) < (m : Int) + 1 := by omega
      have h3 : ((m : Int) + 1) - 1 = (m : Int) := by omega
      rw [retryGo]
      simp [h1, h2, h3, hf k, ih, failTrace]

lemma retryGo_nonneg_total (f : Nat → Outcome ε π) (b : Bool) (p : Int) :
    ∀ n k, ∃ tr, retryGo f b p n (n : Int) k = some tr ∧ countInvoke tr ≤ n := by
  intro n
  induction n with
  | zero => exact fun k => ⟨[], by simp [retryGo], by simp [countInvoke]⟩
  | succ m ih =>
      intro k
      have h1 : ((m : Int) + 1) ≠ 0 := by omega
      have h2 : (0 : Int) < (m : Int) + 1 := by omega
      have h3 : ((m : Int) + 1) - 1 = (m : Int) := by omega
      cases hT : Try (f k) with
      | none =>
          refine ⟨[Event.invoke k], ?_, ?_⟩
          · rw [retryGo]; simp [h1, h2, h3, hT]
          · simp [countInvoke]
      | some e =>
          obtain ⟨tr', htr', hc⟩ := ih (k + 1)
          refine ⟨Event.invoke k ::
            ((if b then [Event.report e] else []) ++
              (if (m : Int) = 0 then [] else [Event.sleep p]) ++ tr'), ?_, ?_⟩
          · rw [retryGo]; simp [h1, h2, h3, hT, htr']
          · simp only [countInvoke] at hc ⊢
            simp [invokesOf_reportIf, invokesOf_sleepIf]
            omega

lemma retryGo_succ_first (f : Nat → Outcome ε π) (b : Bool) (p : Int)
    (k : Nat) (h0 : Try (f k) = none) :
    ∀ fuel (remaining : Int), remaining ≠ 0 →
      retryGo f b p (fuel + 1) remaining k = some [Event.invoke k] := by
  intro fuel remaining hr
  rw [retryGo]
  simp [hr, h0]

lemma retryGo_neg_unfold (f : Nat → Outcome ε π) (b : Bool) (p : Int)
    (a : Int) (ha : a < 0) (fuel : Nat) (k : Nat) :
    retryGo f b p (fuel + 1) a k =
      match Try (f k) with
      | none => some [Event.invoke k]
      | some e =>
        (retryGo f b p fuel a (k + 1)).map fun rest =>
          Event.invoke k ::
            ((if b then [Event.report e] else []) ++ [Event.sleep p] ++ rest) := by
  have h1 : a ≠ 0 := ha.ne
  have h2 : ¬ (0 : Int) < a := not_lt.mpr ha.le
  rw [retryGo]
  cases hT : Try (f k) <;> simp [h1, h2, hT]

lemma retryGo_neg_none (f : Nat → Outcome ε π) (b : Bool) (p : Int)
    (a : Int) (ha : a < 0) (hf : ∀ j, (Try (f j)).isSome) :
    ∀ fuel k, retryGo f b p fuel a k = none := by
  intro fuel
  induction fuel with
  | zero => intro k; simp [retryGo, ha.ne]
  | succ m ih =>
      intro k
      obtain ⟨e, hT⟩ := Option.isSome_iff_exists.mp (hf k)
      rw [retryGo_neg_unfold f b p a ha m k]
      simp [hT, ih]

lemma retryGo_neg_some_success (f : Nat → Outcome ε π) (b : Bool) (p : Int)
    (a : Int) (ha : a < 0) (fuel k : Nat) (tr : List (Event ε π))
    (h : retryGo f b p fuel a k = some tr) : ∃ j, Try (f j) = none := by
  by_contra hc
  push_neg at hc
  have hf : ∀ j, (Try (f j)).isSome := fun j => Option.ne_none_iff_isSome.mp (hc j)
  rw [retryGo_neg_none f b p a ha hf fuel k] at h
  exact Option.noConfusion h

lemma sleepsOf_sleepIf (c : Prop) [Decidable c] (p : Int) :
    sleepsOf (if c then ([] : List (Event ε π)) else [Event.sleep p]) =
      if c then [] else [p] := by
  split <;> rfl

lemma retryGo_reports_failures (f : Nat → Outcome ε π) (p : Int) :
    ∀ fuel (remaining : Int) (k : Nat) tr,
      retryGo f true p fuel remaining k = some tr →
      reportsOf tr = (invokesOf tr).filterMap fun j => Try (f j) := by
  intro fuel
  induction fuel with
  | zero =>
      intro remaining k tr h
      rw [retryGo] at h
      by_cases hr : remaining = 0
      · simp [hr] at h; subst h; simp
      · simp [hr] at h
  | succ m ih =>
      intro remaining k tr h
      rw [retryGo] at h
      by_cases hr : remaining = 0
      · simp [hr] at h; subst h; simp
      · simp only [if_neg hr] at h
        cases hT : Try (f k) with
        | none =>
            simp [hT] at h
            subst h
            simp [List.filterMap_cons, hT]
        | some e =>
            simp [hT, Option.map_eq_some'] at h
            obtain ⟨rest, hrest, hg⟩ := h
            subst hg
            have hrec := ih _ _ _ hrest
            simp [reportsOf_sleepIf, invokesOf_sleepIf, List.filterMap_cons,
              hT, hrec]

lemma retryGo_reports_none (f : Nat → Outcome ε π) (p : Int) :
    ∀ fuel (remaining : Int) (k : Nat) tr,
      retryGo f false p fuel remaining k = some tr → reportsOf tr = [] := by
  intro fuel
  induction fuel with
  | zero =>
      intro remaining k tr h
      rw [retryGo] at h
      by_cases hr : remaining = 0
      · simp [hr] at h; subst h; simp
      · simp [hr] at h
  | succ m ih =>
      intro remaining k tr h
      rw [retryGo] at h
      by_cases hr : remaining = 0
      · simp [hr] at h; subst h; simp
      · simp only [if_neg hr] at h
        cases hT : Try (f k) with
        | none =>
            simp [hT] at h
            subst h
            simp
        | some e =>
            simp [hT, Option.map_eq_some'] at h
            obtain ⟨rest, hrest, hg⟩ := h
            subst hg
            simp [reportsOf_sleepIf, ih _ _ _ hrest]

lemma retryGo_sleeps_eq (f : Nat → Outcome ε π) (b : Bool) (p : Int) :
    ∀ fuel (remaining : Int) (k : Nat) tr,
      retryGo f b p fuel remaining k = some tr →
      ∀ d ∈ sleepsOf tr, d = p := by
  intro fuel
  induction fuel with
  | zero =>
      intro remaining k tr h
      rw [retryGo] at h
      by_cases hr : remaining = 0
      · simp [hr] at h; subst h; simp
      · simp [hr] at h
  | succ m ih =>
      intro remaining k tr h
      rw [retryGo] at h
      by_cases hr : remaining = 0
      · simp [hr] at h; subst h; simp
      · simp only [if_neg hr] at h
        cases hT : Try (f k) with
        | none =>
            simp [hT] at h
            subst h
            simp
        | some e =>
            simp [hT, Option.map_eq_some'] at h
            obtain ⟨rest, hrest, hg⟩ := h
            subst hg
            intro d hd
            simp [sleepsOf_reportIf, sleepsOf_sleepIf] at hd
            rcases hd with ⟨-, rfl⟩ | hd
            · rfl
            · exact ih _ _ _ hrest d hd

lemma retryGo_ne_nil (f : Nat → Outcome ε π) (b : Bool) (p : Int)
    (fuel : Nat) (remaining : Int) (k : Nat) (tr : List (Event ε π))
    (hr : remaining ≠ 0) (h : retryGo f b p fuel remaining k = some tr) :
    tr ≠ [] := by
  cases fuel with
  | zero => rw [retryGo] at h; simp [hr] at h
  | succ m =>
      rw [retryGo] at h
      simp only [if_neg hr] at h
      cases hT : Try (f k) with
      | none =>
          simp [hT] at h
          subst h
          simp
      | some e =>
          simp [hT, Option.map_eq_some'] at h
          obtain ⟨rest, hrest, hg⟩ := h
          simp [← hg]

lemma lastOf_cons_append (x : Event ε π) (A S rest : List (Event ε π))
    (h : rest ≠ []) : (x :: (A ++ (S ++ rest))).getLast? = rest.getLast? := by
  have hsplit : x :: (A ++ (S ++ rest)) = (x :: (A ++ S)) ++ rest := by simp
  rw [hsplit, List.getLast?_append_of_ne_nil _ h]

lemma retryGo_last_not_sleep (f : Nat → Outcome ε π) (b : Bool) (p : Int) :
    ∀ fuel (remaining : Int) (k : Nat) tr,
      retryGo f b p fuel remaining k = some tr →
      ∀ d, tr.getLast? ≠ some (Event.sleep d) := by
  intro fuel
  induction fuel with
  | zero =>
      intro remaining k tr h d
      rw [retryGo] at h
      by_cases hr : remaining = 0
      · simp [hr] at h; subst h; simp
      · simp [hr] at h
  | succ m ih =>
      intro remaining k tr h d
      rw [retryGo] at h
      by_cases hr : remaining = 0
      · simp [hr] at h; subst h; simp
      · simp only [if_neg hr] at h
        cases hT : Try (f k) with
        | none =>
            simp [hT] at h
            subst h
            simp [List.getLast?]
        | some e =>
            simp [hT, Option.map_eq_some'] at h
            obtain ⟨rest, hrest, hg⟩ := h
            subst hg
            by_cases hR : (if (0 : Int) < remaining then remaining - 1
                else remaining) = 0
            · have hrest0 : rest = [] := by
                rw [hR, retryGo_zero_remaining] at hrest
                simpa using hrest.symm
              subst hrest0
              cases b <;> simp [hR, List.getLast?]
            · have hne : rest ≠ [] :=
                retryGo_ne_nil f b p m _ (k + 1) rest hR hrest
              rw [lastOf_cons_append _ _ _ _ hne]
              exact ih _ _ _ hrest d

/-- Claim C1: for `attempts = N > 0` and an operation every invocation of
which fails, `Retry` invokes the operation exactly N times; with a non-nil
`onError`, `onError` is invoked exactly N times and its k-th call receives
the failure value produced by the k-th invocation. -/
theorem retry_always_fail_counts (N : Nat) (_hN : 0 < N)
    (f : Nat → Outcome ε π) (es : Nat → ErrorVal ε π)
    (hf : ∀ j, Try (f j) = some (es j)) (b : Bool) (period : List Int) :
    Retry f (N : Int) b period N =
      some (failTrace b (resolvePeriod period) es N 0) ∧
    countInvoke (failTrace b (resolvePeriod period) es N 0) = N ∧
    reportsOf (failTrace true (resolvePeriod period) es N 0) =
      (List.range N).map es ∧
    countReport (failTrace true (resolvePeriod period) es N 0) = N := by
  refine ⟨retryGo_fail_eq f b _ es hf N 0, ?_, ?_, ?_⟩
  · simp [countInvoke, invokesOf_failTrace]
  · simp [reportsOf_failTrace_true, List.range_eq_range']
  · simp [countReport, reportsOf_failTrace_true]

theorem retry_always_fail_counts_witness :
    Retry (fun _ => (Outcome.fail 0 : Outcome Nat Nat)) ((2 : Nat) : Int)
        true [] 2 =
      some (failTrace true (resolvePeriod [])
        (fun _ => ErrorVal.normal 0) 2 0) ∧
    countInvoke (failTrace true (resolvePeriod [])
      (fun _ => (ErrorVal.normal 0 : ErrorVal Nat Nat)) 2 0) = 2 ∧
    reportsOf (failTrace true (resolvePeriod [])
        (fun _ => (ErrorVal.normal 0 : ErrorVal Nat Nat)) 2 0) =
      (List.range 2).map (fun _ => ErrorVal.normal 0) ∧
    countReport (failTrace true (resolvePeriod [])
      (fun _ => (ErrorVal.normal 0 : ErrorVal Nat Nat)) 2 0) = 2 :=
  retry_always_fail_counts 2 (by decide) (fun _ => Outcome.fail 0)
    (fun _ => ErrorVal.normal 0) (fun _ => rfl) true []

/-- Claim C2: `Try` turns a panic with payload v into a `recovered` failure
value whose `CausedBy` returns v unchanged and whose `Error` message is one
fixed string for every payload; `Retry` then treats this value exactly as a
normal failure: an always-panicking operation runs the very same
`failTrace` loop as an always-failing one, with the recovered values handed
to `onError`. -/
theorem try_panic_recovered_semantics :
    (∀ v : π, Try (Outcome.panic (ε := ε) v) =
      some (ErrorVal.recoveredErr ⟨v⟩)) ∧
    (∀ v : π, (recovered.mk v).CausedBy = v) ∧
    (∀ v : π, (recovered.mk v).Error =
      "RECOVERED, UNKNOWN ERROR; CALL CausedBy() interface\x7b\x7d") ∧
    (∀ (vs : Nat → π) (b : Bool) (p : Int) (n k : Nat),
      retryGo (fun j => Outcome.panic (ε := ε) (vs j)) b p n (n : Int) k =
        some (failTrace b p (fun j => ErrorVal.recoveredErr ⟨vs j⟩) n k)) :=
  ⟨fun _ => rfl, fun _ => rfl, fun _ => rfl,
    fun vs b p n k =>
      retryGo_fail_eq (fun j => Outcome.panic (vs j)) b p
        (fun j => ErrorVal.recoveredErr ⟨vs j⟩) (fun _ => rfl) n k⟩

/-- Claim C3: every abnormal termination of the operation is observable to
the caller as an ordinary, non-none failure value returned by `Try`; no
panic makes `Try` report "no failure". -/
theorem try_panic_observable (v : π) :
    (Try (Outcome.panic (ε := ε) v)).isSome = true := rfl

/-- Claim C4 as stated is false at `attempts = 0`: the operation succeeds on
its first invocation, yet `Retry` performs zero invocations, not exactly
one. -/
theorem retry_first_success_cex :
    Try ((fun _ => (Outcome.ok : Outcome Nat Nat)) 0) = none ∧
    Retry (fun _ => (Outcome.ok : Outcome Nat Nat)) 0 true [] 1 = some [] ∧
    countInvoke ([] : List (Event Nat Nat)) ≠ 1 :=
  ⟨rfl, rfl, by decide⟩

/-- Claim C4 (amended: any nonzero attempts value): for an operation that
succeeds on its first invocation and any `attempts ≠ 0` (including
negative / unbounded), `Retry` invokes the operation exactly once, never
invokes `onError`, and performs no sleep. -/
theorem retry_first_success (f : Nat → Outcome ε π) (h0 : Try (f 0) = none)
    (a : Int) (ha : a ≠ 0) (b : Bool) (period : List Int)
    (fuel : Nat) (hfuel : 0 < fuel) :
    Retry f a b period fuel = some [Event.invoke 0] ∧
    countInvoke [Event.invoke (ε := ε) (π := π) 0] = 1 ∧
    reportsOf [Event.invoke (ε := ε) (π := π) 0] = [] ∧
    sleepsOf [Event.invoke (ε := ε) (π := π) 0] = [] := by
  obtain ⟨m, rfl⟩ : ∃ m, fuel = m + 1 := ⟨fuel - 1, by omega⟩
  exact ⟨retryGo_succ_first f b _ 0 h0 m a ha, rfl, rfl, rfl⟩

theorem retry_first_success_witness :
    Retry (fun _ => (Outcome.ok : Outcome Nat Nat)) (-1) true [] 1 =
      some [Event.invoke 0] ∧
    countInvoke [Event.invoke (ε := Nat) (π := Nat) 0] = 1 ∧
    reportsOf [Event.invoke (ε := Nat) (π := Nat) 0] = [] ∧
    sleepsOf [Event.invoke (ε := Nat) (π := Nat) 0] = [] :=
  retry_first_success (fun _ => Outcome.ok) rfl (-1) (by decide) true [] 1
    (by decide)

/-- Claim C5: with `attempts = 0` the loop body never runs: `Retry` produces
the empty trace — zero invocations, zero `onError` calls, zero sleeps. -/
theorem retry_zero_attempts (f : Nat → Outcome ε π) (b : Bool)
    (period : List Int) (fuel : Nat) :
    Retry f 0 b period fuel = some [] ∧
    countInvoke ([] : List (Event ε π)) = 0 ∧
    countReport ([] : List (Event ε π)) = 0 ∧
    countSleep ([] : List (Event ε π)) = 0 :=
  ⟨retryGo_zero_remaining f b _ fuel 0, rfl, rfl, rfl⟩

/-- Claim C6: the sleep between consecutive failing attempts is the supplied
period when one is supplied and positive, and 5 seconds (5000000000 ns)
when the period is unset or non-positive; every sleep of any terminated run
has that duration, no run's trace ends in a sleep (no sleep after the final
attempt, whether by exhaustion or success), and an always-failing run with
`attempts = N > 0` sleeps exactly N - 1 times. -/
theorem retry_sleep_semantics :
    (∀ d : Int, 0 < d → ∀ rest, resolvePeriod (d :: rest) = d) ∧
    (resolvePeriod [] = 5000000000) ∧
    (∀ d : Int, d ≤ 0 → ∀ rest, resolvePeriod (d :: rest) = 5000000000) ∧
    (∀ (f : Nat → Outcome ε π) (b : Bool) (period : List Int)
        (a : Int) (fuel : Nat) (tr : List (Event ε π)),
      Retry f a b period fuel = some tr →
        (∀ d ∈ sleepsOf tr, d = resolvePeriod period) ∧
        (∀ d : Int, tr.getLast? ≠ some (Event.sleep d))) ∧
    (∀ N : Nat, 0 < N →
      ∀ (f : Nat → Outcome ε π) (es : Nat → ErrorVal ε π),
      (∀ j, Try (f j) = some (es j)) → ∀ (b : Bool) (period : List Int),
        Retry f (N : Int) b period N =
          some (failTrace b (resolvePeriod period) es N 0) ∧
        countSleep (failTrace b (resolvePeriod period) es N 0) = N - 1 ∧
        sleepsOf (failTrace b (resolvePeriod period) es N 0) =
          List.replicate (N - 1) (resolvePeriod period)) := by
  refine ⟨?_, rfl, ?_, ?_, ?_⟩
  · intro d hd rest; simp [resolvePeriod, hd]
  · intro d hd rest; simp [resolvePeriod, not_lt.mpr hd]
  · intro f b period a fuel tr h
    exact ⟨retryGo_sleeps_eq f b _ fuel a 0 tr h,
      retryGo_last_not_sleep f b _ fuel a 0 tr h⟩
  · intro N _hN f es hf b period
    refine ⟨retryGo_fail_eq f b _ es hf N 0, ?_, sleepsOf_failTrace b _ es N 0⟩
    simp [countSleep, sleepsOf_failTrace]

theorem retry_sleep_semantics_witness :
    resolvePeriod [(7 : Int)] = 7 ∧
    countSleep (failTrace true (resolvePeriod [])
      (fun _ => (ErrorVal.normal 0 : ErrorVal Nat Nat)) 3 0) = 3 - 1 :=
  ⟨(retry_sleep_semantics (ε := Nat) (π := Nat)).1 7 (by decide) [],
    ((retry_sleep_semantics (ε := Nat) (π := Nat)).2.2.2.2 3 (by decide)
      (fun _ => Outcome.fail 0) (fun _ => ErrorVal.normal 0)
      (fun _ => rfl) true []).2.1⟩

/-- Claim C7: `Try` passes a failure value returned through the operation's
normal return path to its caller unchanged, and returns "no failure" (nil)
when the operation completes without failure; being a pure function of the
single outcome of the operation, it adds no effects of its own. -/
theorem try_normal_paths :
    (∀ e : ε, Try (Outcome.fail (π := π) e) = some (ErrorVal.normal e)) ∧
    Try (Outcome.ok (ε := ε) (π := π)) = none :=
  ⟨fun _ => rfl, rfl⟩

/-- Claim C8: no fault escapes `Retry`: a panic of the operation is confined
inside `Try` as an ordinary failure value; in every terminated run with a
non-nil `onError` the values handed to `onError` are exactly the failures
of the invocations performed, in order — none dropped — and with `onError`
nil no report happens; either way the loop ends by a normal return. -/
theorem retry_no_fault_escape (f : Nat → Outcome ε π) (p : Int) :
    (∀ v : π, (Try (Outcome.panic (ε := ε) v)).isSome = true) ∧
    (∀ (fuel : Nat) (remaining : Int) (k : Nat) (tr : List (Event ε π)),
      retryGo f true p fuel remaining k = some tr →
      reportsOf tr = (invokesOf tr).filterMap fun j => Try (f j)) ∧
    (∀ (fuel : Nat) (remaining : Int) (k : Nat) (tr : List (Event ε π)),
      retryGo f false p fuel remaining k = some tr → reportsOf tr = []) :=
  ⟨fun _ => rfl, retryGo_reports_failures f p, retryGo_reports_none f p⟩

theorem retry_no_fault_escape_witness :
    reportsOf [Event.invoke 0, Event.report (ErrorVal.normal 0),
      Event.sleep 1, Event.invoke 1,
      Event.report (ErrorVal.normal 0)] =
      (invokesOf [Event.invoke 0, Event.report (ErrorVal.normal 0),
        Event.sleep 1, Event.invoke 1,
        Event.report (ErrorVal.normal (0 : Nat) : ErrorVal Nat Nat)]).filterMap
        fun j => Try ((fun _ => (Outcome.fail 0 : Outcome Nat Nat)) j) :=
  (retry_no_fault_escape (fun _ => (Outcome.fail 0 : Outcome Nat Nat)) 1).2.1
    2 2 0 _ rfl

/-- Claim C9: with `attempts < 0` one loop iteration leaves the counter
unchanged in the recursive call (it is never decremented), so the loop
cannot exit by exhaustion: a run returns only when some invocation of the
operation returns no failure, and with every invocation failing it outruns
any fuel. -/
theorem retry_unbounded_negative (f : Nat → Outcome ε π) (b : Bool) (p : Int)
    (period : List Int) (a : Int) (ha : a < 0) :
    (∀ (fuel k : Nat),
      retryGo f b p (fuel + 1) a k =
        match Try (f k) with
        | none => some [Event.invoke k]
        | some e =>
          (retryGo f b p fuel a (k + 1)).map fun rest =>
            Event.invoke k ::
              ((if b then [Event.report e] else []) ++
                [Event.sleep p] ++ rest)) ∧
    (∀ (fuel : Nat) (tr : List (Event ε π)),
      Retry f a b period fuel = some tr → ∃ j, Try (f j) = none) ∧
    ((∀ j, (Try (f j)).isSome) → ∀ fuel, Retry f a b period fuel = none) := by
  refine ⟨fun fuel k => retryGo_neg_unfold f b p a ha fuel k, ?_, ?_⟩
  · intro fuel tr h
    exact retryGo_neg_some_success f b (resolvePeriod period) a ha fuel 0 tr h
  · intro hf fuel
    exact retryGo_neg_none f b (resolvePeriod period) a ha hf fuel 0

theorem retry_unbounded_negative_witness :
    Retry (fun _ => (Outcome.fail 0 : Outcome Nat Nat)) (-1) true [] 5 =
      none :=
  (retry_unbounded_negative (fun _ => (Outcome.fail 0 : Outcome Nat Nat))
    true 1 [] (-1) (by decide)).2.2 (fun _ => rfl) 5

/-- Claim C10: for `attempts = N ≥ 0` the loop always terminates, whatever
the operation does: the counter is a strictly decreasing non-negative
measure, so fuel N (one unit per iteration) suffices for the run to return
a trace, and the operation is invoked at most N times. -/
theorem retry_nonneg_terminates (f : Nat → Outcome ε π) (b : Bool)
    (period : List Int) (N : Nat) :
    (Retry f (N : Int) b period N).isSome = true ∧
    countInvoke ((Retry f (N : Int) b period N).getD []) ≤ N := by
  obtain ⟨tr, htr, hc⟩ := retryGo_nonneg_total f b (resolvePeriod period) N 0
  have h : Retry f (N : Int) b period N = some tr := htr
  rw [h]
  exact ⟨rfl, hc⟩
